import Mathlib

/-!
Verification of the duckdb_rdkit fingerprint / UmbraMol storage core.

The development shallowly embeds the C++ source of the extension:
machine integers (`uint64_t`, `idx_t`) become `Nat` with explicit
`% 2 ^ 64` where wraparound matters, byte buffers (`std::string`,
`string_t`) become `List Nat` (one `Nat` per byte), and fallible code
returns `Except`/`Option`.  RDKit itself is outside the repository:
molecule graphs are abstracted by the exact feature observations the
fingerprint generator makes of them (substructure-match counts per
catalog pattern, heavy-atom count, ring count, stereo and charge
flags), and the engine's pickling / subgraph-match / canonical-SMILES
primitives appear as explicit function parameters.
-/

namespace DuckdbRdkit

/-- The fragment catalog `dalke_counts` from `make_dalke_fp`'s translation
unit, entry for entry and string for string: each inner list is a SMILES
pattern followed by its count thresholds (as decimal strings, exactly as
in the C++ initializer). -/
def dalke_counts : List (List String) :=
  [["O", "2", "3", "1", "4", "5"],
   ["Ccc", "2", "4"],
   ["CCN", "1"],
   ["cnc", "1"],
   ["cN", "1"],
   ["C=O", "1"],
   ["CCC", "1"],
   ["S", "1"],
   ["c1ccccc1", "1", "2"],
   ["N", "2", "3", "1"],
   ["C=C", "1"],
   ["nn", "1"],
   ["CO", "2"],
   ["Ccn", "1", "2"],
   ["CCCCC", "1"],
   ["cc(c)c", "1"],
   ["CNC", "2"],
   ["s", "1"],
   ["CC(C)C", "1"],
   ["o", "1"],
   ["cncnc", "1"],
   ["C=N", "1"],
   ["CC=O", "2", "3"],
   ["Cl", "1"],
   ["ccncc", "2"],
   ["CCCCCC", "6"],
   ["F", "1"],
   ["CCOC", "3"],
   ["c(cn)n", "1"],
   ["C", "9", "6", "1"],
   ["CC=C(C)C", "1"],
   ["c1ccncc1", "1"],
   ["CC(C)N", "1"],
   ["CC", "1"],
   ["CCC(C)O", "4"],
   ["ccc(cc)n", "2"],
   ["C1CCCC1", "1"],
   ["CNCN", "1"],
   ["cncn", "3"],
   ["CSC", "1"],
   ["CCNCCCN", "1"],
   ["CccC", "1"],
   ["ccccc(c)c", "3"]]

/-- `std::stoi` restricted to the plain decimal strings that occur in the
catalog (the only place the generator applies it). -/
def stoi (s : String) : Nat :=
  s.data.foldl (fun n c => n * 10 + (c.toNat - 48)) 0

/-- The parsed count thresholds of one catalog entry: `frag[1..]`,
converted with `std::stoi` as in the generator's inner loop. -/
def thresholds (frag : List String) : List Nat :=
  (frag.drop 1).map stoi

/-- The catalog flattened into (pattern, threshold) pairs in
entry-then-threshold order; the generator assigns fingerprint bit
`curBit = i` to the `i`-th pair. -/
def fragPairs : List (String × Nat) :=
  (dalke_counts.map (fun frag => (thresholds frag).map (fun t => (frag.headD (""), t)))).flatten

/-- An RDKit `ROMol`, abstracted by exactly the observations
`make_dalke_fp` makes of it: the (uniquified, match-capped) substructure
match count per catalog SMILES pattern, `getNumHeavyAtoms()`,
`getRingInfo()->numRings()`, and whether any atom has a chiral tag or a
nonzero formal charge. -/
structure ROMol where
  fragMatchCount : String → Nat
  numHeavyAtoms : Nat
  numRings : Nat
  hasStereo : Bool
  hasCharges : Bool

/-- `heavy_atom_bucket` from the source: heavy-atom count to a 4-bit bucket. -/
def heavy_atom_bucket (count : Nat) : Nat :=
  if count ≤ 5 then 0
  else if count ≤ 10 then 1
  else if count ≤ 15 then 2
  else if count ≤ 20 then 3
  else if count ≤ 25 then 4
  else if count ≤ 30 then 5
  else if count ≤ 35 then 6
  else if count ≤ 40 then 7
  else if count ≤ 50 then 8
  else if count ≤ 60 then 9
  else if count ≤ 75 then 10
  else if count ≤ 90 then 11
  else if count ≤ 110 then 12
  else if count ≤ 140 then 13
  else if count ≤ 180 then 14
  else 15

/-- `ring_count_bucket` from the source: ring count saturated at 3. -/
def ring_count_bucket (count : Nat) : Nat :=
  if count ≥ 3 then 3 else count

/-- The fragment-bit loop of `make_dalke_fp`: walk the (indexed)
(pattern, threshold) pairs, OR-ing `1 <<< curBit` into the accumulator
whenever the molecule's match count for the pattern reaches the
threshold (`matchVect.size() >= std::stoi(frag[i])`). -/
def fragBitsFold (count : String → Nat) : List (Nat × String × Nat) → Nat → Nat
  | [], fp => fp
  | p :: rest, fp =>
      fragBitsFold count rest (if p.2.2 ≤ count p.2.1 then fp ||| 1 <<< p.1 else fp)

/-- Bits 0-54 of the fingerprint (fragment region). -/
def fragBits (mol : ROMol) : Nat :=
  fragBitsFold mol.fragMatchCount fragPairs.enum 0

/-- `make_dalke_fp`: the 64-bit DalkeFP of a molecule.  Bits 0-54:
fragment patterns; bits 55-58: heavy-atom bucket; bits 59-60: ring
bucket; bit 61: has stereocenters; bit 62: has charges; bit 63: 0. -/
def make_dalke_fp (mol : ROMol) : Nat :=
  fragBits mol
    ||| heavy_atom_bucket mol.numHeavyAtoms <<< 55
    ||| ring_count_bucket mol.numRings <<< 59
    ||| (if mol.hasStereo then 1 <<< 61 else 0)
    ||| (if mol.hasCharges then 1 <<< 62 else 0)

/-- `dalke_fp_contains` from umbra_mol.hpp, check for check. -/
def dalke_fp_contains (target_fp query_fp : Nat) : Bool :=
  let target_size := (target_fp >>> 55) &&& 0xF
  let query_size := (query_fp >>> 55) &&& 0xF
  if target_size < query_size then false
  else
    let target_rings := (target_fp >>> 59) &&& 0x3
    let query_rings := (query_fp >>> 59) &&& 0x3
    if target_rings < query_rings then false
    else if query_fp &&& (1 <<< 61) ≠ 0 ∧ target_fp &&& (1 <<< 61) = 0 then false
    else if query_fp &&& (1 <<< 62) ≠ 0 ∧ target_fp &&& (1 <<< 62) = 0 then false
    else
      let frag_mask := (1 <<< 55) - 1
      if target_fp &&& query_fp &&& frag_mask ≠ query_fp &&& frag_mask then false
      else true

/-- `DALKE_FP_PREFIX_BYTES` (8): size of the fingerprint header of an
UmbraMol buffer. -/
def DALKE_FP_PREFIX_BYTES : Nat := 8

/-- `string_t::PREFIX_BYTES` (4): the number of buffer bytes DuckDB
duplicates inline in a `string_t`; `umbra_mol_t::PREFIX_BYTES` aliases it. -/
def PREFIX_BYTES : Nat := 4

/-- The little-endian byte image a `memcpy` of a `uint64_t` leaves in a
buffer (byte `i` is `n / 256 ^ i % 256`; the source notes the layout is
little-endian). -/
def u64ToBytesLE (n : Nat) : List Nat :=
  [n % 256, n / 2 ^ 8 % 256, n / 2 ^ 16 % 256, n / 2 ^ 24 % 256,
   n / 2 ^ 32 % 256, n / 2 ^ 40 % 256, n / 2 ^ 48 % 256, n / 2 ^ 56 % 256]

/-- Read a little-endian unsigned integer from a byte list (the value a
`memcpy` into a `uint64_t` produces). -/
def bytesToU64LE : List Nat → Nat
  | [] => 0
  | b :: rest => b + 256 * bytesToU64LE rest

/-- `get_umbra_mol_string`: `[8-byte little-endian DalkeFP][RDKit pickle]`.
The chemistry engine's serializer `rdkit_mol_to_binary_mol` is abstract,
passed as `pickle`. -/
def get_umbra_mol_string (pickle : ROMol → List Nat) (mol : ROMol) : List Nat :=
  u64ToBytesLE (make_dalke_fp mol) ++ pickle mol

/-- `umbra_mol_t::GetDalkeFP`: `memcpy` the first 8 bytes of the buffer
into a `uint64_t`. -/
def GetDalkeFP (buf : List Nat) : Nat :=
  bytesToU64LE (List.take DALKE_FP_PREFIX_BYTES buf)

/-- `dalke_fp_from_umbramol` (the `dalke_fp(UmbraMol)` scalar function):
rows shorter than 8 bytes are marked invalid (`none`); otherwise the
first 8 bytes are read as a `uint64_t`. -/
def dalke_fp_from_umbramol (buf : List Nat) : Option Nat :=
  if buf.length < 8 then none
  else some (bytesToU64LE (List.take 8 buf))

/-- `idx_t` is an unsigned 64-bit integer; subtraction wraps modulo this. -/
def UINT64_MOD : Nat := 2 ^ 64

/-- `std::string::resize` throws `std::length_error` beyond `max_size()`;
on every supported platform `max_size()` is below `PTRDIFF_MAX`, so any
request of at least `2 ^ 63` bytes fails. -/
def STRING_MAX_SIZE : Nat := 2 ^ 63 - 1

/-- The message of the exception `std::string::resize` raises. -/
def lengthError : String := "length_error"

/-- `umbra_mol_t::GetBinaryMol`: computes
`bmol_size = GetSize() - DALKE_FP_PREFIX_BYTES` in `idx_t` (unsigned,
wrapping) arithmetic, resizes a fresh string to that many bytes (which
throws `length_error` past `max_size()`), and copies the bytes after the
8-byte header only when the buffer is strictly longer than the header. -/
def GetBinaryMol (buf : List Nat) : Except String (List Nat) :=
  let size := buf.length
  let bmol_size := (size + (UINT64_MOD - DALKE_FP_PREFIX_BYTES)) % UINT64_MOD
  if STRING_MAX_SIZE < bmol_size then Except.error lengthError
  else if DALKE_FP_PREFIX_BYTES < size then
    Except.ok (List.take bmol_size (List.drop DALKE_FP_PREFIX_BYTES buf))
  else Except.ok (List.replicate bmol_size 0)

/-- `mol_cmp` from mol_compare.cpp: unpickle both payloads, subgraph-match
in both directions, and fall back to canonical-SMILES equality.  The
RDKit primitives (`molFromPickle`, `SubstructMatch`, `MolToSmiles`) are
abstract parameters. -/
def mol_cmp (Mol : Type) (molFromPickle : List Nat → Mol)
    (substructMatch : Mol → Mol → Bool) (molToSmiles : Mol → String)
    (m1_bmol m2_bmol : List Nat) : Bool :=
  let m1 := molFromPickle m1_bmol
  let m2 := molFromPickle m2_bmol
  let ss1 := substructMatch m1 m2
  let ss2 := substructMatch m2 m1
  if ss1 && !ss2 then false
  else if !ss1 && ss2 then false
  else molToSmiles m1 == molToSmiles m2

/-- `is_exact_match_umbramol`'s row kernel: `memcmp` the two 4-byte inline
`string_t` prefixes (the first `PREFIX_BYTES` bytes of each buffer);
on mismatch return `false` without touching the payloads, otherwise
run `mol_cmp` on the two extracted binary molecules. -/
def is_exact_match_umbramol (Mol : Type) (molFromPickle : List Nat → Mol)
    (substructMatch : Mol → Mol → Bool) (molToSmiles : Mol → String)
    (a b : List Nat) : Except String Bool :=
  if List.take PREFIX_BYTES a ≠ List.take PREFIX_BYTES b then Except.ok false
  else
    match GetBinaryMol a, GetBinaryMol b with
    | Except.ok ba, Except.ok bb =>
        Except.ok (mol_cmp Mol molFromPickle substructMatch molToSmiles ba bb)
    | Except.error e, _ => Except.error e
    | _, Except.error e => Except.error e

/-- Modelled from the spec: the repository delegates "Q is a true
substructure of T" to RDKit, which is outside the source tree.  The spec
pins down exactly the consequences the fingerprint relies on ("a molecule
that is a supergraph of another must have bucket/flag values that are ≥
the subgraph's in every region, and its set fragment bits must be a
superset"): every pattern-match count, the heavy-atom count and the ring
count of the subgraph are dominated by the supergraph's, and the
stereo/charge flags are monotone. -/
def is_true_substructure (Q T : ROMol) : Prop :=
  (∀ p : String, Q.fragMatchCount p ≤ T.fragMatchCount p) ∧
  Q.numHeavyAtoms ≤ T.numHeavyAtoms ∧
  Q.numRings ≤ T.numRings ∧
  (Q.hasStereo = true → T.hasStereo = true) ∧
  (Q.hasCharges = true → T.hasCharges = true)


/-! ### Generic bit-arithmetic lemmas -/

theorem lor_mul_pow_eq_add {k a b : Nat} (h : a < 2 ^ k) :
    a ||| b * 2 ^ k = a + b * 2 ^ k := by
  have hbk : b * 2 ^ k = b <<< k := (Nat.shiftLeft_eq b k).symm
  apply Nat.eq_of_testBit_eq
  intro i
  rcases Nat.lt_or_ge i k with hi | hi
  · have hsplit : b * 2 ^ k = 2 ^ i * (b * 2 ^ (k - i)) := by
      rw [← Nat.mul_assoc, Nat.mul_comm (2 ^ i), Nat.mul_assoc, ← Nat.pow_add]
      congr 2
      omega
    have hdiv : (a + b * 2 ^ k) / 2 ^ i = a / 2 ^ i + b * 2 ^ (k - i) := by
      rw [hsplit, Nat.add_mul_div_left _ _ (Nat.two_pow_pos i)]
    have hmod : (a / 2 ^ i + b * 2 ^ (k - i)) % 2 = a / 2 ^ i % 2 := by
      have hx : b * 2 ^ (k - i) = b * 2 ^ (k - i - 1) * 2 := by
        rw [Nat.mul_assoc]
        congr 1
        rw [← Nat.pow_succ]
        congr 1
        omega
      rw [hx, Nat.add_mul_mod_self_right]
    have hb : (b * 2 ^ k).testBit i = false := by
      rw [hbk, Nat.testBit_shiftLeft]
      simp [Nat.not_le.mpr hi]
    rw [Nat.testBit_or, hb, Bool.or_false, Nat.testBit_to_div_mod, Nat.testBit_to_div_mod,
      hdiv, hmod]
  · have ha : a.testBit i = false :=
      Nat.testBit_lt_two_pow (Nat.lt_of_lt_of_le h (Nat.pow_le_pow_right (by omega) hi))
    have hdiv : (a + b * 2 ^ k) / 2 ^ i = b / 2 ^ (i - k) := by
      have h1 : (a + b * 2 ^ k) / 2 ^ k = b := by
        rw [Nat.mul_comm, Nat.add_mul_div_left _ _ (Nat.two_pow_pos k),
          Nat.div_eq_of_lt h, Nat.zero_add]
      have h2 : (2 : Nat) ^ i = 2 ^ k * 2 ^ (i - k) := by
        rw [← Nat.pow_add]
        congr 1
        omega
      rw [h2, ← Nat.div_div_eq_div_mul, h1]
    have hb2 : (b * 2 ^ k).testBit i = b.testBit (i - k) := by
      rw [hbk, Nat.testBit_shiftLeft]
      simp [hi]
    rw [Nat.testBit_or, ha, Bool.false_or, hb2, Nat.testBit_to_div_mod,
      Nat.testBit_to_div_mod, hdiv]

theorem and_mod_two_pow (x y n : Nat) :
    (x &&& y) % 2 ^ n = x % 2 ^ n &&& y % 2 ^ n := by
  apply Nat.eq_of_testBit_eq
  intro j
  by_cases hj : j < n <;> simp [Nat.testBit_mod_two_pow, Nat.testBit_and, hj]

theorem and_one_shiftLeft_ne_zero (n i : Nat) :
    (n &&& (1 <<< i) ≠ 0) ↔ n.testBit i = true := by
  rw [Nat.one_shiftLeft, Nat.and_two_pow]
  cases h : n.testBit i <;> simp [(Nat.two_pow_pos i).ne']

/-! ### Bucket lemmas -/

theorem hab_spec (n : Nat) :
    (n ≤ 5 ∧ heavy_atom_bucket n = 0) ∨
    (5 < n ∧ n ≤ 10 ∧ heavy_atom_bucket n = 1) ∨
    (10 < n ∧ n ≤ 15 ∧ heavy_atom_bucket n = 2) ∨
    (15 < n ∧ n ≤ 20 ∧ heavy_atom_bucket n = 3) ∨
    (20 < n ∧ n ≤ 25 ∧ heavy_atom_bucket n = 4) ∨
    (25 < n ∧ n ≤ 30 ∧ heavy_atom_bucket n = 5) ∨
    (30 < n ∧ n ≤ 35 ∧ heavy_atom_bucket n = 6) ∨
    (35 < n ∧ n ≤ 40 ∧ heavy_atom_bucket n = 7) ∨
    (40 < n ∧ n ≤ 50 ∧ heavy_atom_bucket n = 8) ∨
    (50 < n ∧ n ≤ 60 ∧ heavy_atom_bucket n = 9) ∨
    (60 < n ∧ n ≤ 75 ∧ heavy_atom_bucket n = 10) ∨
    (75 < n ∧ n ≤ 90 ∧ heavy_atom_bucket n = 11) ∨
    (90 < n ∧ n ≤ 110 ∧ heavy_atom_bucket n = 12) ∨
    (110 < n ∧ n ≤ 140 ∧ heavy_atom_bucket n = 13) ∨
    (140 < n ∧ n ≤ 180 ∧ heavy_atom_bucket n = 14) ∨
    (180 < n ∧ heavy_atom_bucket n = 15) := by
  unfold heavy_atom_bucket
  by_cases h1 : n ≤ 5
  · exact Or.inl ⟨h1, by rw [if_pos h1]⟩
  rw [if_neg h1]
  refine Or.inr ?_
  by_cases h2 : n ≤ 10
  · exact Or.inl ⟨by omega, h2, by rw [if_pos h2]⟩
  rw [if_neg h2]
  refine Or.inr ?_
  by_cases h3 : n ≤ 15
  · exact Or.inl ⟨by omega, h3, by rw [if_pos h3]⟩
  rw [if_neg h3]
  refine Or.inr ?_
  by_cases h4 : n ≤ 20
  · exact Or.inl ⟨by omega, h4, by rw [if_pos h4]⟩
  rw [if_neg h4]
  refine Or.inr ?_
  by_cases h5 : n ≤ 25
  · exact Or.inl ⟨by omega, h5, by rw [if_pos h5]⟩
  rw [if_neg h5]
  refine Or.inr ?_
  by_cases h6 : n ≤ 30
  · exact Or.inl ⟨by omega, h6, by rw [if_pos h6]⟩
  rw [if_neg h6]
  refine Or.inr ?_
  by_cases h7 : n ≤ 35
  · exact Or.inl ⟨by omega, h7, by rw [if_pos h7]⟩
  rw [if_neg h7]
  refine Or.inr ?_
  by_cases h8 : n ≤ 40
  · exact Or.inl ⟨by omega, h8, by rw [if_pos h8]⟩
  rw [if_neg h8]
  refine Or.inr ?_
  by_cases h9 : n ≤ 50
  · exact Or.inl ⟨by omega, h9, by rw [if_pos h9]⟩
  rw [if_neg h9]
  refine Or.inr ?_
  by_cases h10 : n ≤ 60
  · exact Or.inl ⟨by omega, h10, by rw [if_pos h10]⟩
  rw [if_neg h10]
  refine Or.inr ?_
  by_cases h11 : n ≤ 75
  · exact Or.inl ⟨by omega, h11, by rw [if_pos h11]⟩
  rw [if_neg h11]
  refine Or.inr ?_
  by_cases h12 : n ≤ 90
  · exact Or.inl ⟨by omega, h12, by rw [if_pos h12]⟩
  rw [if_neg h12]
  refine Or.inr ?_
  by_cases h13 : n ≤ 110
  · exact Or.inl ⟨by omega, h13, by rw [if_pos h13]⟩
  rw [if_neg h13]
  refine Or.inr ?_
  by_cases h14 : n ≤ 140
  · exact Or.inl ⟨by omega, h14, by rw [if_pos h14]⟩
  rw [if_neg h14]
  refine Or.inr ?_
  by_cases h15 : n ≤ 180
  · exact Or.inl ⟨by omega, h15, by rw [if_pos h15]⟩
  rw [if_neg h15]
  exact Or.inr ⟨by omega, rfl⟩

theorem heavy_atom_bucket_le (n : Nat) : heavy_atom_bucket n ≤ 15 := by
  rcases hab_spec n with h|h|h|h|h|h|h|h|h|h|h|h|h|h|h|h <;> omega

theorem heavy_atom_bucket_mono {m n : Nat} (h : m ≤ n) :
    heavy_atom_bucket m ≤ heavy_atom_bucket n := by
  rcases hab_spec m with hm|hm|hm|hm|hm|hm|hm|hm|hm|hm|hm|hm|hm|hm|hm|hm <;>
    rcases hab_spec n with hn|hn|hn|hn|hn|hn|hn|hn|hn|hn|hn|hn|hn|hn|hn|hn <;> omega

theorem ring_count_bucket_le (n : Nat) : ring_count_bucket n ≤ 3 := by
  unfold ring_count_bucket
  split <;> omega

theorem ring_count_bucket_mono {m n : Nat} (h : m ≤ n) :
    ring_count_bucket m ≤ ring_count_bucket n := by
  unfold ring_count_bucket
  split <;> split <;> omega


theorem fragBitsFold_lt (c : String → Nat) :
    ∀ (pairs : List (Nat × String × Nat)) (fp : Nat),
      (∀ p ∈ pairs, p.1 < 55) → fp < 2 ^ 55 → fragBitsFold c pairs fp < 2 ^ 55
  | [], fp, _, hfp => hfp
  | p :: rest, fp, hidx, hfp => by
      rw [fragBitsFold]
      apply fragBitsFold_lt c rest _ (fun q hq => hidx q (List.mem_cons_of_mem p hq))
      split
      · refine Nat.or_lt_two_pow hfp ?_
        rw [Nat.one_shiftLeft]
        exact Nat.pow_lt_pow_right (by omega) (hidx p (List.mem_cons_self p rest))
      · exact hfp

theorem testBit_fragBitsFold (c : String → Nat) :
    ∀ (pairs : List (Nat × String × Nat)) (fp j : Nat),
      (fragBitsFold c pairs fp).testBit j =
        (fp.testBit j || pairs.any (fun p => decide (p.1 = j) && decide (p.2.2 ≤ c p.2.1)))
  | [], fp, j => by simp [fragBitsFold]
  | p :: rest, fp, j => by
      rw [fragBitsFold, testBit_fragBitsFold c rest, List.any_cons]
      split
      · rename_i hsel
        rw [Nat.testBit_or, Nat.one_shiftLeft, Nat.testBit_two_pow]
        simp only [decide_eq_true hsel, Bool.and_true]
        cases fp.testBit j <;> cases hd : decide (p.1 = j) <;> simp
      · rename_i hsel
        simp only [decide_eq_false hsel, Bool.and_false, Bool.false_or]

theorem fragBits_lt (mol : ROMol) : fragBits mol < 2 ^ 55 := by
  have hidx : ∀ p ∈ fragPairs.enum, p.1 < 55 := by decide
  exact fragBitsFold_lt mol.fragMatchCount fragPairs.enum 0 hidx (Nat.two_pow_pos 55)

theorem fragBits_submask {Q T : ROMol}
    (h : ∀ s : String, Q.fragMatchCount s ≤ T.fragMatchCount s) :
    fragBits T &&& fragBits Q = fragBits Q := by
  apply Nat.eq_of_testBit_eq
  intro j
  rw [Nat.testBit_and]
  unfold fragBits
  rw [testBit_fragBitsFold, testBit_fragBitsFold]
  simp only [Nat.zero_testBit, Bool.false_or]
  cases hq : fragPairs.enum.any
      (fun p => decide (p.1 = j) && decide (p.2.2 ≤ Q.fragMatchCount p.2.1)) with
  | false => simp
  | true =>
      have ht : fragPairs.enum.any
          (fun p => decide (p.1 = j) && decide (p.2.2 ≤ T.fragMatchCount p.2.1)) = true := by
        rw [List.any_eq_true] at hq ⊢
        obtain ⟨p, hp, hsel⟩ := hq
        refine ⟨p, hp, ?_⟩
        simp only [Bool.and_eq_true, decide_eq_true_eq] at hsel ⊢
        exact ⟨hsel.1, Nat.le_trans hsel.2 (h p.2.1)⟩
      rw [ht]
      simp

theorem lor_two_pow_eq_add {k a : Nat} (h : a < 2 ^ k) : a ||| 2 ^ k = a + 2 ^ k := by
  have h2 := @lor_mul_pow_eq_add k a 1 h
  rw [Nat.one_mul] at h2
  exact h2

theorem sum_of_parts {f g r : Nat} (s c : Bool) (hf : f < 2 ^ 55) (hg : g ≤ 15) (hr : r ≤ 3) :
    f ||| g * 2 ^ 55 ||| r * 2 ^ 59 ||| (if s then 2 ^ 61 else 0) ||| (if c then 2 ^ 62 else 0) =
      f + g * 2 ^ 55 + r * 2 ^ 59 + (if s then 2 ^ 61 else 0) + (if c then 2 ^ 62 else 0) := by
  have h59 : f + g * 2 ^ 55 < 2 ^ 59 := by omega
  cases s <;> cases c <;>
    simp only [Bool.false_eq_true, ite_false, ite_true, Nat.or_zero] <;>
    rw [lor_mul_pow_eq_add hf, lor_mul_pow_eq_add h59]
  · omega
  · rw [lor_two_pow_eq_add (show f + g * 2 ^ 55 + r * 2 ^ 59 < 2 ^ 62 by omega)]
    omega
  · rw [lor_two_pow_eq_add (show f + g * 2 ^ 55 + r * 2 ^ 59 < 2 ^ 61 by omega)]
    omega
  · rw [lor_two_pow_eq_add (show f + g * 2 ^ 55 + r * 2 ^ 59 < 2 ^ 61 by omega),
      lor_two_pow_eq_add (show f + g * 2 ^ 55 + r * 2 ^ 59 + 2 ^ 61 < 2 ^ 62 by omega)]

theorem make_dalke_fp_eq_sum (mol : ROMol) :
    make_dalke_fp mol =
      fragBits mol + heavy_atom_bucket mol.numHeavyAtoms * 2 ^ 55 +
        ring_count_bucket mol.numRings * 2 ^ 59 +
        (if mol.hasStereo then 2 ^ 61 else 0) +
        (if mol.hasCharges then 2 ^ 62 else 0) := by
  unfold make_dalke_fp
  rw [Nat.shiftLeft_eq, Nat.shiftLeft_eq, Nat.one_shiftLeft, Nat.one_shiftLeft]
  exact sum_of_parts mol.hasStereo mol.hasCharges (fragBits_lt mol)
    (heavy_atom_bucket_le mol.numHeavyAtoms) (ring_count_bucket_le mol.numRings)


theorem make_dalke_fp_lt (mol : ROMol) : make_dalke_fp mol < 2 ^ 64 := by
  have hf := fragBits_lt mol
  have hg := heavy_atom_bucket_le mol.numHeavyAtoms
  have hr := ring_count_bucket_le mol.numRings
  rw [make_dalke_fp_eq_sum]
  cases mol.hasStereo <;> cases mol.hasCharges <;>
    simp only [Bool.false_eq_true, ite_false, ite_true] <;> omega

theorem size_region_extract (mol : ROMol) :
    (make_dalke_fp mol >>> 55) &&& 0xF = heavy_atom_bucket mol.numHeavyAtoms := by
  have hf := fragBits_lt mol
  have hg := heavy_atom_bucket_le mol.numHeavyAtoms
  have hr := ring_count_bucket_le mol.numRings
  rw [Nat.shiftRight_eq_div_pow, show (0xF : Nat) = 2 ^ 4 - 1 by norm_num,
    Nat.and_pow_two_sub_one_eq_mod, make_dalke_fp_eq_sum]
  cases mol.hasStereo <;> cases mol.hasCharges <;>
    simp only [Bool.false_eq_true, ite_false, ite_true] <;> omega

theorem ring_region_extract (mol : ROMol) :
    (make_dalke_fp mol >>> 59) &&& 0x3 = ring_count_bucket mol.numRings := by
  have hf := fragBits_lt mol
  have hg := heavy_atom_bucket_le mol.numHeavyAtoms
  have hr := ring_count_bucket_le mol.numRings
  rw [Nat.shiftRight_eq_div_pow, show (0x3 : Nat) = 2 ^ 2 - 1 by norm_num,
    Nat.and_pow_two_sub_one_eq_mod, make_dalke_fp_eq_sum]
  cases mol.hasStereo <;> cases mol.hasCharges <;>
    simp only [Bool.false_eq_true, ite_false, ite_true] <;> omega

theorem testBit61_extract (mol : ROMol) :
    (make_dalke_fp mol).testBit 61 = mol.hasStereo := by
  have hf := fragBits_lt mol
  have hg := heavy_atom_bucket_le mol.numHeavyAtoms
  have hr := ring_count_bucket_le mol.numRings
  rw [Nat.testBit_to_div_mod, make_dalke_fp_eq_sum]
  cases mol.hasStereo <;> cases mol.hasCharges <;>
    simp only [Bool.false_eq_true, ite_false, ite_true, decide_eq_true_eq,
      decide_eq_false_iff_not] <;> omega

theorem testBit62_extract (mol : ROMol) :
    (make_dalke_fp mol).testBit 62 = mol.hasCharges := by
  have hf := fragBits_lt mol
  have hg := heavy_atom_bucket_le mol.numHeavyAtoms
  have hr := ring_count_bucket_le mol.numRings
  rw [Nat.testBit_to_div_mod, make_dalke_fp_eq_sum]
  cases mol.hasStereo <;> cases mol.hasCharges <;>
    simp only [Bool.false_eq_true, ite_false, ite_true, decide_eq_true_eq,
      decide_eq_false_iff_not] <;> omega

theorem and61_extract (mol : ROMol) :
    make_dalke_fp mol &&& (1 <<< 61) = (if mol.hasStereo then 2 ^ 61 else 0) := by
  rw [Nat.one_shiftLeft, Nat.and_two_pow, testBit61_extract]
  cases mol.hasStereo <;> simp

theorem and62_extract (mol : ROMol) :
    make_dalke_fp mol &&& (1 <<< 62) = (if mol.hasCharges then 2 ^ 62 else 0) := by
  rw [Nat.one_shiftLeft, Nat.and_two_pow, testBit62_extract]
  cases mol.hasCharges <;> simp

theorem frag_mod_extract (mol : ROMol) :
    make_dalke_fp mol % 2 ^ 55 = fragBits mol := by
  have hf := fragBits_lt mol
  have hg := heavy_atom_bucket_le mol.numHeavyAtoms
  have hr := ring_count_bucket_le mol.numRings
  rw [make_dalke_fp_eq_sum]
  cases mol.hasStereo <;> cases mol.hasCharges <;>
    simp only [Bool.false_eq_true, ite_false, ite_true] <;> omega


/-- Claim C2: `dalke_fp_contains target_fp query_fp` returns true if and
only if all five ordered checks hold: the target's heavy-atom bucket
(bits 55-58) is at least the query's, the target's ring bucket
(bits 59-60) is at least the query's, bit 61 set in the query implies it
is set in the target, likewise bit 62, and the query's fragment bits
0-54 (mask `2 ^ 55 - 1`) are all present in the target.  The early-exit
evaluation order is the if-chain of the definition itself; this theorem
characterizes the resulting value. -/
theorem dalke_fp_contains_check_characterization (t q : Nat) :
    dalke_fp_contains t q = true ↔
      ((q >>> 55) &&& 0xF ≤ (t >>> 55) &&& 0xF ∧
       (q >>> 59) &&& 0x3 ≤ (t >>> 59) &&& 0x3 ∧
       (q.testBit 61 = true → t.testBit 61 = true) ∧
       (q.testBit 62 = true → t.testBit 62 = true) ∧
       t &&& q &&& (2 ^ 55 - 1) = q &&& (2 ^ 55 - 1)) := by
  simp only [dalke_fp_contains]
  rw [← and_one_shiftLeft_ne_zero q 61, ← and_one_shiftLeft_ne_zero t 61,
    ← and_one_shiftLeft_ne_zero q 62, ← and_one_shiftLeft_ne_zero t 62,
    show (1 : Nat) <<< 55 = 2 ^ 55 from Nat.one_shiftLeft 55]
  generalize (t >>> 55) &&& 0xF = A
  generalize (q >>> 55) &&& 0xF = B
  generalize (t >>> 59) &&& 0x3 = C
  generalize (q >>> 59) &&& 0x3 = D
  generalize q &&& 1 <<< 61 = Qs
  generalize t &&& 1 <<< 61 = Ts
  generalize q &&& 1 <<< 62 = Qc
  generalize t &&& 1 <<< 62 = Tc
  generalize t &&& q &&& (2 ^ 55 - 1) = X
  generalize q &&& (2 ^ 55 - 1) = Y
  split_ifs with h1 h2 h3 h4 h5 <;>
    simp only [Bool.false_eq_true, false_iff, true_iff] <;> omega


/-- Claim C10: the containment predicate is reflexive on every 64-bit
value (indeed on every natural number): `dalke_fp_contains f f` is true. -/
theorem dalke_fp_contains_reflexive (f : Nat) : dalke_fp_contains f f = true := by
  simp only [dalke_fp_contains, Nat.and_self]
  rw [if_neg (Nat.lt_irrefl _), if_neg (Nat.lt_irrefl _),
    if_neg (fun hc => hc.1 hc.2), if_neg (fun hc => hc.1 hc.2),
    if_neg (fun hne => hne rfl)]

/-- Claim C1: for every molecule pair (T, Q) where Q is a true
substructure of T (spec-modelled via `is_true_substructure`: every
feature the fingerprint observes is dominated by the supergraph's), the
fingerprint filter never produces a false negative:
`dalke_fp_contains (make_dalke_fp T) (make_dalke_fp Q)` is true. -/
theorem dalke_fp_contains_sound_for_substructure (T Q : ROMol) (h : is_true_substructure Q T) :
    dalke_fp_contains (make_dalke_fp T) (make_dalke_fp Q) = true := by
  obtain ⟨hfragc, hha, hrr, hst, hch⟩ := h
  simp only [dalke_fp_contains]
  rw [size_region_extract T, size_region_extract Q, ring_region_extract T,
    ring_region_extract Q, and61_extract T, and61_extract Q, and62_extract T,
    and62_extract Q, show (1 : Nat) <<< 55 = 2 ^ 55 from Nat.one_shiftLeft 55,
    Nat.and_pow_two_sub_one_eq_mod, Nat.and_pow_two_sub_one_eq_mod,
    and_mod_two_pow, frag_mod_extract T, frag_mod_extract Q, fragBits_submask hfragc]
  rw [if_neg (Nat.not_lt.mpr (heavy_atom_bucket_mono hha)),
    if_neg (Nat.not_lt.mpr (ring_count_bucket_mono hrr))]
  have h3 : ¬ ((if Q.hasStereo then 2 ^ 61 else 0) ≠ 0 ∧
      (if T.hasStereo then 2 ^ 61 else 0) = 0) := by
    cases hq : Q.hasStereo
    · simp
    · rw [hst hq]
      simp [(Nat.two_pow_pos 61).ne']
  have h4 : ¬ ((if Q.hasCharges then 2 ^ 62 else 0) ≠ 0 ∧
      (if T.hasCharges then 2 ^ 62 else 0) = 0) := by
    cases hq : Q.hasCharges
    · simp
    · rw [hch hq]
      simp [(Nat.two_pow_pos 62).ne']
  rw [if_neg h3, if_neg h4, if_neg (fun hne => hne rfl)]


theorem bytesToU64LE_roundtrip (n : Nat) :
    bytesToU64LE (u64ToBytesLE n) = n % 2 ^ 64 := by
  simp only [u64ToBytesLE, bytesToU64LE]
  omega

theorem u64ToBytesLE_length (n : Nat) : (u64ToBytesLE n).length = 8 := rfl

/-- Claim C5: decoding the fingerprint from the prefixed encoding yields
exactly the generated fingerprint: reading the first 8 bytes of
`get_umbra_mol_string` as a little-endian `uint64_t` (as `GetDalkeFP`
does) recovers `make_dalke_fp` of the molecule, for every serializer
`pickle` the chemistry engine may supply. -/
theorem decode_fingerprint_roundtrip (pickle : ROMol → List Nat) (mol : ROMol) :
    GetDalkeFP (get_umbra_mol_string pickle mol) = make_dalke_fp mol := by
  unfold GetDalkeFP get_umbra_mol_string DALKE_FP_PREFIX_BYTES
  rw [List.take_left' (u64ToBytesLE_length (make_dalke_fp mol)),
    bytesToU64LE_roundtrip, Nat.mod_eq_of_lt (make_dalke_fp_lt mol)]

theorem bytesToU64LE_mod_take (k : Nat) :
    ∀ (bs : List Nat), (∀ x ∈ bs, x < 256) →
      bytesToU64LE bs % 256 ^ k = bytesToU64LE (List.take k bs) := by
  induction k with
  | zero =>
      intro bs _
      simp [bytesToU64LE, Nat.mod_one]
  | succ k ih =>
      intro bs hb
      cases bs with
      | nil => simp [bytesToU64LE]
      | cons b rest =>
          rw [List.take_succ_cons, bytesToU64LE, bytesToU64LE]
          have hbb : b < 256 := hb b (List.mem_cons_self _ _)
          have hrest : ∀ x ∈ rest, x < 256 := fun x hx => hb x (List.mem_cons_of_mem _ hx)
          have hmlt : bytesToU64LE rest % 256 ^ k < 256 ^ k :=
            Nat.mod_lt _ (Nat.pos_pow_of_pos k (by omega))
          have e1 : b + 256 * bytesToU64LE rest =
              (b + 256 * (bytesToU64LE rest % 256 ^ k)) +
                256 ^ (k + 1) * (bytesToU64LE rest / 256 ^ k) := by
            conv_lhs => rw [← Nat.mod_add_div (bytesToU64LE rest) (256 ^ k)]
            ring
          rw [e1, Nat.add_mul_mod_self_left,
            Nat.mod_eq_of_lt (by rw [Nat.pow_succ]; omega), ih rest hrest]


/-- Claim C3 as amended: the exact-match fast path compares only the
4-byte inline `string_t` prefix, i.e. bits 0-31 of the embedded
fingerprint.  When the two buffers' fingerprints differ modulo `2 ^ 32`
(and the buffers are genuine byte buffers), `is_exact_match_umbramol`
returns false without reaching the payload comparison; differences
confined to fragment bits 32-54 are not caught by the fast path (see the
counterexample). -/
theorem is_exact_match_inline_prefix_reject (Mol : Type) (mfp : List Nat → Mol)
    (sm : Mol → Mol → Bool) (smi : Mol → String) (a b : List Nat)
    (ha : ∀ x ∈ a, x < 256) (hb : ∀ x ∈ b, x < 256)
    (hfp : GetDalkeFP a % 2 ^ 32 ≠ GetDalkeFP b % 2 ^ 32) :
    is_exact_match_umbramol Mol mfp sm smi a b = Except.ok false := by
  have hpre : List.take PREFIX_BYTES a ≠ List.take PREFIX_BYTES b := by
    intro heq
    apply hfp
    have h32 : (2 : Nat) ^ 32 = 256 ^ 4 := by norm_num
    have hta : ∀ x ∈ List.take 8 a, x < 256 := fun x hx => ha x (List.take_subset 8 a hx)
    have htb : ∀ x ∈ List.take 8 b, x < 256 := fun x hx => hb x (List.take_subset 8 b hx)
    unfold GetDalkeFP DALKE_FP_PREFIX_BYTES
    rw [h32, bytesToU64LE_mod_take 4 _ hta, bytesToU64LE_mod_take 4 _ htb,
      List.take_take, List.take_take]
    unfold PREFIX_BYTES at heq
    simp only [show (min 4 8 : Nat) = 4 from rfl, heq]
  unfold is_exact_match_umbramol
  rw [if_pos hpre]

/-- Claim C4: `mol_cmp` is a symmetric two-phase check over the two
deserialized payloads: if exactly one direction of the subgraph match
succeeds the result is false, and if both or neither succeeds the result
is the byte equality of the two canonical SMILES strings. -/
theorem mol_cmp_two_phase (Mol : Type) (mfp : List Nat → Mol)
    (sm : Mol → Mol → Bool) (smi : Mol → String) (A B : List Nat) :
    (sm (mfp A) (mfp B) ≠ sm (mfp B) (mfp A) → mol_cmp Mol mfp sm smi A B = false) ∧
    (sm (mfp A) (mfp B) = sm (mfp B) (mfp A) →
      mol_cmp Mol mfp sm smi A B = (smi (mfp A) == smi (mfp B))) := by
  simp only [mol_cmp]
  constructor
  · intro hne
    cases h1 : sm (mfp A) (mfp B) <;> cases h2 : sm (mfp B) (mfp A) <;> simp_all
  · intro heq
    cases h1 : sm (mfp A) (mfp B) <;> cases h2 : sm (mfp B) (mfp A) <;> simp_all

/-- Claim C6 (code bug): on a 5-byte prefixed buffer, `GetBinaryMol`
computes the payload size `5 - 8` in wrapping `idx_t` arithmetic, giving
`2 ^ 64 - 3`, and `std::string::resize` then throws `length_error`
instead of producing the empty payload the spec requires. -/
theorem GetBinaryMol_truncated_buffer_throws : GetBinaryMol (List.replicate 5 0) = Except.error lengthError := by rfl

/-- Claim C8: the total number of count thresholds across all entries of
the Fragment Catalog is exactly 55 - equivalently the flattened
(pattern, threshold) pair list has length 55 - so the fragment portion
occupies exactly bits 0 through 54, one bit per pair in
entry-then-threshold order. -/
theorem catalog_bit_budget :
    (dalke_counts.map (fun frag => (thresholds frag).length)).sum = 55 ∧
      fragPairs.length = 55 := by
  constructor <;> rfl

/-- Claim C9, counterexample: the very first catalog entry
(pattern "O") carries thresholds 2, 3, 1, 4, 5, which are not in
strictly ascending order. -/
theorem catalog_thresholds_not_ascending :
    ["O", "2", "3", "1", "4", "5"] ∈ dalke_counts ∧
    ¬ List.Pairwise (fun a b => a < b) (thresholds ["O", "2", "3", "1", "4", "5"]) := by
  decide

/-- Claim C9 as amended: each catalog entry's thresholds are positive and
pairwise distinct, but they appear in the catalog's bit order, not in
ascending order. -/
theorem catalog_thresholds_positive_distinct :
    ∀ frag ∈ dalke_counts,
      (∀ t ∈ thresholds frag, 0 < t) ∧
        List.Pairwise (fun a b => a ≠ b) (thresholds frag) := by
  decide

/-- Claim C3, counterexample: two prefixed buffers whose fingerprints
differ exactly in fragment bit 32 share their first 4 bytes, so the
inline-prefix fast path does not reject them and the comparison falls
through to the payload comparison - which here returns true, refuting
"returns false without deserializing". -/
theorem is_exact_match_fragment_bits_counterexample :
    (GetDalkeFP (u64ToBytesLE 0 ++ [0]) &&& (2 ^ 55 - 1)) ≠
        (GetDalkeFP (u64ToBytesLE (2 ^ 32) ++ [0]) &&& (2 ^ 55 - 1)) ∧
    is_exact_match_umbramol (List Nat) (fun l => l) (fun _ _ => true) (fun _ => (""))
        (u64ToBytesLE 0 ++ [0]) (u64ToBytesLE (2 ^ 32) ++ [0]) = Except.ok true := by
  constructor
  · decide
  · rfl


/-- Helper: for well-formed buffers (length at least 8 and below the
resize limit) `GetBinaryMol` returns exactly the bytes after the 8-byte
header. -/
theorem GetBinaryMol_of_ge_8 (buf : List Nat) (h : 8 ≤ buf.length)
    (hlt : buf.length < 2 ^ 63) :
    GetBinaryMol buf = Except.ok (List.drop 8 buf) := by
  simp only [GetBinaryMol, UINT64_MOD, STRING_MAX_SIZE, DALKE_FP_PREFIX_BYTES]
  have hb : (buf.length + (2 ^ 64 - 8)) % 2 ^ 64 = buf.length - 8 := by omega
  rw [hb, if_neg (by omega)]
  by_cases h8 : 8 < buf.length
  · rw [if_pos h8, ← List.length_drop, List.take_length]
  · rw [if_neg h8]
    have h88 : buf.length = 8 := by omega
    rw [h88]
    have hnil : List.drop 8 buf = [] := by
      rw [← h88, List.drop_length]
    rw [hnil]
    rfl

/-- Claim C7: `dalke_fp_from_umbramol` marks every buffer shorter than 8
bytes invalid (`none`, never reading past the end), and on every buffer
of length at least 8 returns exactly the first 8 bytes read as a
little-endian `uint64_t` (the value `GetDalkeFP` reads). -/
theorem dalke_fp_from_umbramol_spec (buf : List Nat) :
    (buf.length < 8 → dalke_fp_from_umbramol buf = none) ∧
    (8 ≤ buf.length → dalke_fp_from_umbramol buf = some (GetDalkeFP buf)) := by
  constructor
  · intro h
    simp [dalke_fp_from_umbramol, h]
  · intro h
    unfold dalke_fp_from_umbramol GetDalkeFP DALKE_FP_PREFIX_BYTES
    rw [if_neg (by omega)]

/-- Witness for C7: the length-5 truncated buffer of the spec scenario is
rejected, and a 9-byte buffer decodes to its leading 8 bytes. -/
theorem dalke_fp_from_umbramol_spec_witness :
    dalke_fp_from_umbramol (List.replicate 5 0) = none ∧
    dalke_fp_from_umbramol [1, 2, 3, 4, 5, 6, 7, 8, 9] =
      some (GetDalkeFP [1, 2, 3, 4, 5, 6, 7, 8, 9]) :=
  ⟨(dalke_fp_from_umbramol_spec (List.replicate 5 0)).1 (by decide),
   (dalke_fp_from_umbramol_spec [1, 2, 3, 4, 5, 6, 7, 8, 9]).2 (by decide)⟩

/-- Witness for C1 at a concrete molecule pair: the query has no features,
the target dominates it in every region. -/
theorem dalke_fp_contains_sound_for_substructure_witness :
    is_true_substructure ⟨fun _ => 0, 2, 0, false, false⟩ ⟨fun _ => 1, 10, 1, true, true⟩ ∧
    dalke_fp_contains (make_dalke_fp ⟨fun _ => 1, 10, 1, true, true⟩)
      (make_dalke_fp ⟨fun _ => 0, 2, 0, false, false⟩) = true :=
  have hsub : is_true_substructure (⟨fun _ => 0, 2, 0, false, false⟩ : ROMol)
      ⟨fun _ => 1, 10, 1, true, true⟩ :=
    ⟨fun _ => Nat.zero_le 1, by decide, by decide, fun _ => rfl, fun _ => rfl⟩
  ⟨hsub, dalke_fp_contains_sound_for_substructure _ _ hsub⟩

/-- Witness for the amended C3: buffers differing already in their first
byte (fingerprints 1 vs 0) are rejected by the inline-prefix fast path. -/
theorem is_exact_match_inline_prefix_reject_witness :
    is_exact_match_umbramol (List Nat) (fun l => l) (fun _ _ => true) (fun _ => (""))
      (u64ToBytesLE 1 ++ [7]) (u64ToBytesLE 0 ++ [7]) = Except.ok false :=
  is_exact_match_inline_prefix_reject (List Nat) (fun l => l) (fun _ _ => true)
    (fun _ => ("")) (u64ToBytesLE 1 ++ [7]) (u64ToBytesLE 0 ++ [7])
    (by decide) (by decide) (by decide)

/-- Witness for C4: with a one-directional subgraph match the comparison
returns false. -/
theorem mol_cmp_two_phase_witness :
    mol_cmp Nat (fun l => l.length) (fun a b => decide (a ≤ b)) (fun _ => ("")) [0] [] =
      false :=
  (mol_cmp_two_phase Nat (fun l => l.length) (fun a b => decide (a ≤ b))
    (fun _ => ("")) [0] []).1 (by decide)

/-- Witness for the amended C9 at the first catalog entry. -/
theorem catalog_thresholds_positive_distinct_witness :
    (∀ t ∈ thresholds ["O", "2", "3", "1", "4", "5"], 0 < t) ∧
      List.Pairwise (fun a b => a ≠ b) (thresholds ["O", "2", "3", "1", "4", "5"]) :=
  catalog_thresholds_positive_distinct ["O", "2", "3", "1", "4", "5"] (by decide)

end DuckdbRdkit
